import Mathlib

/-!
# Verification of the video-transcript translation pipeline

Shallow embedding of `src/app/actions.ts` (the cached, retrying variant of the
pipeline, which the spec follows): the segment normalizer, the chunker, the
translator with retry/reconciliation, the orchestrator `processVideo`, and the
result cache.  External collaborators (the caption source and the generative
model) are modelled as oracles supplied to the functions; JavaScript
exceptions are modelled with `Option`/`Except`.
-/

namespace VideoTranscript

/-- The `SubtitleBlock` record of `actions.ts`: one timed subtitle line.  `offset` and
`duration` are JavaScript numbers produced by `parseInt` arithmetic; they are
modelled as `Int` since `duration` can be negative (end before start). -/
structure SubtitleBlock where
  text : String
  offset : Int
  duration : Int
deriving DecidableEq, Repr

/-! ## Chunker

`generateTranscriptWorker` splits the transcript with
`for (let i = 0; i < transcript.length; i += chunkSize) slice(i, i + chunkSize)`,
i.e. successive `take n` / `drop n` groups. -/

/-- The constant `chunkSize = 50` of `generateTranscriptWorker`. -/
def chunkSize : Nat := 50

/-- The chunking loop of `generateTranscriptWorker`: successive slices of size
`n`.  The source only ever calls this with the positive constant `chunkSize`;
a zero chunk size (which would not terminate in the source loop) returns `[]`
here so the definition is total. -/
def chunkList (n : Nat) : List α → List (List α)
  | [] => []
  | a :: l =>
    match n with
    | 0 => []
    | m + 1 => (a :: l).take (m + 1) :: chunkList (m + 1) ((a :: l).drop (m + 1))
termination_by l => l.length
decreasing_by
  simp only [List.length_drop, List.length_cons]
  omega

theorem chunkList_nil (n : Nat) : chunkList n ([] : List α) = [] := by
  rw [chunkList.eq_def]

theorem chunkList_cons_succ (m : Nat) (a : α) (l : List α) :
    chunkList (m + 1) (a :: l) =
      (a :: l).take (m + 1) :: chunkList (m + 1) ((a :: l).drop (m + 1)) := by
  rw [chunkList.eq_def]

/-- Concatenating the chunks restores the original list. -/
theorem chunkList_join (n : Nat) (l : List α) :
    (chunkList (n + 1) l).flatten = l := by
  cases l with
  | nil => rw [chunkList_nil]; rfl
  | cons a t =>
    rw [chunkList_cons_succ, List.flatten_cons,
      chunkList_join n ((a :: t).drop (n + 1)), List.take_append_drop]
termination_by l.length
decreasing_by
  simp only [List.length_drop, List.length_cons]
  omega

/-- The number of chunks is `⌈length / (n+1)⌉`. -/
theorem chunkList_length (n : Nat) (l : List α) :
    (chunkList (n + 1) l).length = (l.length + n) / (n + 1) := by
  cases l with
  | nil =>
    rw [chunkList_nil]
    simp [Nat.div_eq_of_lt (Nat.lt_succ_self n)]
  | cons a t =>
    rw [chunkList_cons_succ]
    rw [List.length_cons, chunkList_length n ((a :: t).drop (n + 1))]
    simp only [List.length_drop, List.length_cons]
    have hsplit : t.length + 1 - (n + 1) + n = t.length - n + n := by omega
    have hdiv : (t.length - n + n) / (n + 1) = t.length / (n + 1) := by
      rcases le_or_lt n t.length with h | h
      · rw [Nat.sub_add_cancel h]
      · rw [Nat.sub_eq_zero_of_le (Nat.le_of_lt h), Nat.zero_add,
          Nat.div_eq_of_lt (Nat.lt_succ_self n),
          Nat.div_eq_of_lt (Nat.lt_succ_of_lt h)]
    have hrhs : t.length + 1 + n = t.length + (n + 1) := by omega
    rw [hsplit, hdiv, hrhs, Nat.add_div_right _ (Nat.succ_pos n)]
termination_by l.length
decreasing_by
  simp only [List.length_drop, List.length_cons]
  omega

theorem chunkList_ne_nil (n : Nat) (a : α) (l : List α) :
    chunkList (n + 1) (a :: l) ≠ [] := by
  rw [chunkList_cons_succ]
  exact List.cons_ne_nil _ _

theorem getLast?_cons_ne_nil (x : α) (ys : List α) (hy : ys ≠ []) :
    (x :: ys).getLast? = ys.getLast? := by
  cases ys with
  | nil => exact absurd rfl hy
  | cons b r => exact List.getLast?_cons_cons

/-- Every chunk except possibly the last has size exactly `n + 1`. -/
theorem chunkList_dropLast (n : Nat) (l : List α) :
    ∀ c ∈ (chunkList (n + 1) l).dropLast, c.length = n + 1 := by
  cases l with
  | nil => rw [chunkList_nil]; intro c hc; simp at hc
  | cons a t =>
    rw [chunkList_cons_succ]
    rcases hd : (a :: t).drop (n + 1) with _ | ⟨b, r⟩
    · rw [chunkList_nil]
      intro c hc; simp at hc
    · intro c hc
      rw [List.dropLast_cons_of_ne_nil (chunkList_ne_nil n b r)] at hc
      rcases List.mem_cons.mp hc with rfl | hc
      · have hlen : n + 1 ≤ (a :: t).length := by
          by_contra hcon
          rw [List.drop_of_length_le (Nat.le_of_not_le hcon)] at hd
          exact List.cons_ne_nil b r hd.symm
        rw [List.length_take, Nat.min_eq_left hlen]
      · exact chunkList_dropLast n (b :: r) c hc
termination_by l.length
decreasing_by
  have hlen := congrArg List.length hd
  simp only [List.length_drop, List.length_cons] at hlen ⊢
  omega

/-- The last chunk has size `length mod (n+1)`, or `n + 1` when the length is
evenly divisible. -/
theorem chunkList_getLast (n : Nat) (l : List α) :
    ∀ c, (chunkList (n + 1) l).getLast? = some c →
      c.length = if l.length % (n + 1) = 0 then n + 1 else l.length % (n + 1) := by
  cases l with
  | nil => rw [chunkList_nil]; intro c hc; simp at hc
  | cons a t =>
    rw [chunkList_cons_succ]
    rcases hd : (a :: t).drop (n + 1) with _ | ⟨b, r⟩
    · rw [chunkList_nil]
      intro c hc
      have hcc : List.take (n + 1) (a :: t) = c := by simpa using hc
      have hle : (a :: t).length ≤ n + 1 := by
        by_contra hcon
        have hlen := congrArg List.length hd
        simp only [List.length_drop, List.length_nil] at hlen
        omega
      subst hcc
      rcases Nat.lt_or_ge (a :: t).length (n + 1) with hlt | hge
      · have hne : (a :: t).length ≠ 0 := by simp
        rw [List.length_take, Nat.min_eq_right (Nat.le_of_lt hlt),
          Nat.mod_eq_of_lt hlt, if_neg hne]
      · have heq : (a :: t).length = n + 1 := Nat.le_antisymm hle hge
        rw [List.length_take, Nat.min_eq_right hle, heq,
          if_pos (Nat.mod_self (n + 1))]
    · intro c hc
      rw [getLast?_cons_ne_nil _ _ (chunkList_ne_nil n b r)] at hc
      have hrec := chunkList_getLast n (b :: r) c hc
      have hge : n + 1 ≤ (a :: t).length := by
        by_contra hcon
        rw [List.drop_of_length_le (Nat.le_of_not_le hcon)] at hd
        exact List.cons_ne_nil b r hd.symm
      have hbr : (b :: r).length = (a :: t).length - (n + 1) := by
        rw [← hd, List.length_drop]
      have hshift := Nat.add_mod_right ((a :: t).length - (n + 1)) (n + 1)
      rw [Nat.sub_add_cancel hge] at hshift
      rw [hrec, hbr, ← hshift]
termination_by l.length
decreasing_by
  have hlen := congrArg List.length hd
  simp only [List.length_drop, List.length_cons] at hlen ⊢
  omega

/-! ## Translator

`translateChunk` sends a chunk to the model, cleans and parses the reply, and
reconciles it against the original chunk; it retries on any failure with
backoff, and after exhausting retries returns the original chunk with each
text prefixed by the failure marker.

The model call together with the fence-stripping, the `[...]`-substring
extraction and `JSON.parse` is abstracted as an oracle
`Nat → Option (List ParsedItem)` giving the outcome of each attempt:
`none` when the request or the parse throws (or the parsed value is not an
array), `some parsed` when a JSON array was parsed. -/

/-- One element of the parsed JSON array.  `text` is `some s` when the element
is an object carrying a string `text` property with value `s`, and `none` when
the element has no such property (`translated?.text` is `undefined`). -/
structure ParsedItem where
  text : Option String
deriving DecidableEq, Repr

/-- JavaScript `x || fallback` on an optional string: `undefined` and the
empty string are falsy. -/
def jsOr (x : Option String) (fallback : String) : String :=
  match x with
  | some s => if s.isEmpty then fallback else s
  | none => fallback

/-- The reconciliation map of `translateChunk`
(`chunk.map((orig, idx) => ({ text: parsed[idx]?.text || orig.text, offset:
orig.offset, duration: orig.duration }))`), written with an explicit running
index. -/
def reconcileAux (parsed : List ParsedItem) : Nat → List SubtitleBlock → List SubtitleBlock
  | _, [] => []
  | idx, orig :: rest =>
    { text := jsOr ((parsed.get? idx).bind ParsedItem.text) orig.text
      offset := orig.offset
      duration := orig.duration } :: reconcileAux parsed (idx + 1) rest

def reconcile (chunk : List SubtitleBlock) (parsed : List ParsedItem) : List SubtitleBlock :=
  reconcileAux parsed 0 chunk

/-- The constant `MAX_RETRIES` of `translateChunk`. -/
def MAX_RETRIES : Nat := 3

/-- The failure marker prefixed to every text when all retries fail. -/
def failureMarker : String := "[Lỗi dịch] "

/-- The body of the `try` block of `translateChunk` for one attempt:
`none` models a thrown exception (request error, parse error, or the
`'Invalid response structure'` throw when the parsed value is not a non-empty
array). -/
def attemptTranslate (outcome : Option (List ParsedItem))
    (chunk : List SubtitleBlock) : Option (List SubtitleBlock) :=
  match outcome with
  | none => none
  | some parsed =>
    if parsed.isEmpty then none
    else some (reconcile chunk parsed)

/-- Result of `translateChunk`, instrumented with the number of model calls
made and the backoff delays (in milliseconds) slept between attempts. -/
structure TransResult where
  blocks : List SubtitleBlock
  attemptsMade : Nat
  delays : List Nat
deriving DecidableEq, Repr

/-- The function `translateChunk(chunk, retryCount)`: attempt, and on failure either retry
after a `1000 * (retryCount + 1)` ms delay (while `retryCount < MAX_RETRIES`)
or fall back to the original texts prefixed with the failure marker. -/
def translateChunkAux (oracle : Nat → Option (List ParsedItem))
    (chunk : List SubtitleBlock) (retryCount : Nat) : TransResult :=
  match attemptTranslate (oracle retryCount) chunk with
  | some blocks => ⟨blocks, 1, []⟩
  | none =>
    if h : retryCount < MAX_RETRIES then
      let r := translateChunkAux oracle chunk (retryCount + 1)
      ⟨r.blocks, r.attemptsMade + 1, 1000 * (retryCount + 1) :: r.delays⟩
    else
      ⟨chunk.map (fun item => { item with text := failureMarker ++ item.text }), 1, []⟩
termination_by MAX_RETRIES + 1 - retryCount
decreasing_by omega

/-- The entry point `translateChunk(chunk)` with the default `retryCount = 0`. -/
def translateChunk (oracle : Nat → Option (List ParsedItem))
    (chunk : List SubtitleBlock) : TransResult :=
  translateChunkAux oracle chunk 0

theorem jsOr_of_ne_empty (t fallback : String) (h : t ≠ "") :
    jsOr (some t) fallback = t := by
  have hf : t.isEmpty = false := by
    rw [Bool.eq_false_iff]
    intro hc
    exact h ((String.isEmpty_iff t).mp hc)
  simp [jsOr, hf]

theorem reconcileAux_length (parsed : List ParsedItem) (k : Nat)
    (chunk : List SubtitleBlock) :
    (reconcileAux parsed k chunk).length = chunk.length := by
  induction chunk generalizing k with
  | nil => rfl
  | cons orig rest ih => simp [reconcileAux, ih]

theorem reconcileAux_getElem? (parsed : List ParsedItem) (k : Nat)
    (chunk : List SubtitleBlock) (i : Nat) :
    (reconcileAux parsed k chunk)[i]? =
      (chunk[i]?).map (fun orig =>
        { text := jsOr ((parsed[k + i]?).bind ParsedItem.text) orig.text
          offset := orig.offset
          duration := orig.duration }) := by
  induction chunk generalizing k i with
  | nil => simp [reconcileAux]
  | cons orig rest ih =>
    cases i with
    | zero => simp [reconcileAux]
    | succ j =>
      have hk : k + (j + 1) = (k + 1) + j := by omega
      simp [reconcileAux, hk, ih (k + 1) j]

theorem reconcile_length (chunk : List SubtitleBlock) (parsed : List ParsedItem) :
    (reconcile chunk parsed).length = chunk.length :=
  reconcileAux_length parsed 0 chunk

theorem reconcile_getElem? (chunk : List SubtitleBlock) (parsed : List ParsedItem)
    (i : Nat) :
    (reconcile chunk parsed)[i]? =
      (chunk[i]?).map (fun orig =>
        { text := jsOr ((parsed[i]?).bind ParsedItem.text) orig.text
          offset := orig.offset
          duration := orig.duration }) := by
  have h := reconcileAux_getElem? parsed 0 chunk i
  simpa [reconcile] using h

theorem attemptTranslate_eq_some (outcome : Option (List ParsedItem))
    (chunk blocks : List SubtitleBlock)
    (h : attemptTranslate outcome chunk = some blocks) :
    ∃ parsed, blocks = reconcile chunk parsed := by
  cases outcome with
  | none => simp [attemptTranslate] at h
  | some parsed =>
    by_cases he : parsed.isEmpty
    · simp [attemptTranslate, he] at h
    · rw [attemptTranslate] at h
      simp only [he, Bool.false_eq_true, if_false, Option.some_inj] at h
      exact ⟨parsed, h.symm⟩

/-- Every outcome of `translateChunkAux` is either a reconciliation against
the original chunk or the marked fallback copy of the original chunk. -/
theorem translateChunkAux_blocks (oracle : Nat → Option (List ParsedItem))
    (chunk : List SubtitleBlock) (retryCount : Nat) :
    (∃ parsed, (translateChunkAux oracle chunk retryCount).blocks
        = reconcile chunk parsed) ∨
    (translateChunkAux oracle chunk retryCount).blocks
        = chunk.map (fun item => { item with text := failureMarker ++ item.text }) := by
  rw [translateChunkAux.eq_def]
  cases hat : attemptTranslate (oracle retryCount) chunk with
  | some blocks =>
    rcases attemptTranslate_eq_some _ _ _ hat with ⟨parsed, hp⟩
    exact Or.inl ⟨parsed, hp⟩
  | none =>
    by_cases h : retryCount < MAX_RETRIES
    · simp only [h, dif_pos]
      exact translateChunkAux_blocks oracle chunk (retryCount + 1)
    · simp only [h, dif_neg]
      exact Or.inr rfl
termination_by MAX_RETRIES + 1 - retryCount
decreasing_by omega

/-- When the attempt at `retryCount` succeeds, `translateChunkAux` returns its
reconciliation with one attempt and no delay. -/
theorem translateChunkAux_success (oracle : Nat → Option (List ParsedItem))
    (chunk blocks : List SubtitleBlock) (retryCount : Nat)
    (h : attemptTranslate (oracle retryCount) chunk = some blocks) :
    translateChunkAux oracle chunk retryCount = ⟨blocks, 1, []⟩ := by
  rw [translateChunkAux.eq_def, h]

/-- When every attempt fails, the translator returns the marked original
chunk after `MAX_RETRIES + 1` attempts with backoff delays
`[1000, 2000, 3000]`. -/
theorem translateChunkAux_all_fail (oracle : Nat → Option (List ParsedItem))
    (chunk : List SubtitleBlock)
    (h : ∀ n, attemptTranslate (oracle n) chunk = none) :
    translateChunkAux oracle chunk 0 =
      ⟨chunk.map (fun item => { item with text := failureMarker ++ item.text }),
        MAX_RETRIES + 1, [1000, 2000, 3000]⟩ := by
  have h3 : translateChunkAux oracle chunk 3 =
      ⟨chunk.map (fun item => { item with text := failureMarker ++ item.text }),
        1, []⟩ := by
    rw [translateChunkAux.eq_def, h 3]
    norm_num [MAX_RETRIES]
  have h2 : translateChunkAux oracle chunk 2 =
      ⟨chunk.map (fun item => { item with text := failureMarker ++ item.text }),
        2, [3000]⟩ := by
    rw [translateChunkAux.eq_def, h 2]
    norm_num [MAX_RETRIES, h3]
  have h1 : translateChunkAux oracle chunk 1 =
      ⟨chunk.map (fun item => { item with text := failureMarker ++ item.text }),
        3, [2000, 3000]⟩ := by
    rw [translateChunkAux.eq_def, h 1]
    norm_num [MAX_RETRIES, h2]
  rw [translateChunkAux.eq_def, h 0]
  norm_num [MAX_RETRIES, h1]

/-- C1: for every chunk and every Translator outcome (successful parse, short
parse, or total failure after retries — all modelled by an arbitrary
per-attempt oracle), `translateChunk` returns a list of the same length as the
chunk, and at every index the returned block's `offset` and `duration` equal
the original chunk's; only `text` can differ. -/
theorem C1_translate_timing_invariant (oracle : Nat → Option (List ParsedItem))
    (chunk : List SubtitleBlock) :
    (translateChunk oracle chunk).blocks.length = chunk.length ∧
    ∀ i : Nat, (((translateChunk oracle chunk).blocks[i]?).map SubtitleBlock.offset
        = (chunk[i]?).map SubtitleBlock.offset) ∧
      (((translateChunk oracle chunk).blocks[i]?).map SubtitleBlock.duration
        = (chunk[i]?).map SubtitleBlock.duration) := by
  rw [translateChunk]
  rcases translateChunkAux_blocks oracle chunk 0 with ⟨parsed, hb⟩ | hb <;> rw [hb]
  · refine ⟨reconcile_length chunk parsed, fun i => ?_⟩
    rw [reconcile_getElem?]
    cases chunk[i]? <;> simp
  · refine ⟨by simp, fun i => ?_⟩
    rw [List.getElem?_map]
    cases chunk[i]? <;> simp

/-- C3 as stated is false: under total failure the translator makes 4 model
attempts (the initial attempt plus `MAX_RETRIES = 3` retries), not 3.  The
code itself logs the last of them as `attempt 4`. -/
theorem C3_counterexample_attempt_count :
    (translateChunk (fun _ => none) [⟨"hello", 0, 1000⟩]).attemptsMade = 4 ∧
    (translateChunk (fun _ => none) [⟨"hello", 0, 1000⟩]).attemptsMade ≠ 3 := by
  have h := translateChunkAux_all_fail (fun _ => none) [⟨"hello", 0, 1000⟩]
    (fun _ => rfl)
  rw [translateChunk, h]
  exact ⟨rfl, by decide⟩

/-- C3 (amended): if every attempt fails, `translateChunk` does not propagate
the failure: it returns the original chunk with every text prefixed by the
visible failure marker and timing fields unchanged; the number of retries
equals the configured maximum `MAX_RETRIES = 3` — four model attempts in
total — and the delay before the k-th retry is `k * 1000` ms
(`[1000, 2000, 3000]`). -/
theorem C3_total_failure_fallback (oracle : Nat → Option (List ParsedItem))
    (chunk : List SubtitleBlock)
    (h : ∀ n, attemptTranslate (oracle n) chunk = none) :
    translateChunk oracle chunk =
      ⟨chunk.map (fun item => { item with text := failureMarker ++ item.text }),
        MAX_RETRIES + 1, [1000, 2000, 3000]⟩ := by
  rw [translateChunk]
  exact translateChunkAux_all_fail oracle chunk h

theorem C3_total_failure_fallback_witness :
    translateChunk (fun _ => none) [⟨"hi", 5, 7⟩] =
      ⟨[⟨failureMarker ++ "hi", 5, 7⟩], MAX_RETRIES + 1, [1000, 2000, 3000]⟩ :=
  C3_total_failure_fallback (fun _ => none) [⟨"hi", 5, 7⟩] (fun _ => rfl)

/-- C7: if the first attempt parses to a non-empty array shorter than the
chunk, the result is built positionally over the original chunk — indices
within the parsed array with a usable (non-empty) text use the translated
text, indices at or beyond its length keep the original text — and no retry
and no fallback happens (one attempt, no delays). -/
theorem C7_short_parse_positional (oracle : Nat → Option (List ParsedItem))
    (chunk : List SubtitleBlock) (parsed : List ParsedItem)
    (h0 : oracle 0 = some parsed) (hne : parsed ≠ [])
    (hshort : parsed.length < chunk.length) :
    (translateChunk oracle chunk).attemptsMade = 1 ∧
    (translateChunk oracle chunk).delays = [] ∧
    (∀ i t, i < parsed.length → (parsed[i]?).bind ParsedItem.text = some t →
      t ≠ "" →
      ((translateChunk oracle chunk).blocks[i]?).map SubtitleBlock.text = some t) ∧
    (∀ i, parsed.length ≤ i →
      ((translateChunk oracle chunk).blocks[i]?).map SubtitleBlock.text
        = (chunk[i]?).map SubtitleBlock.text) := by
  have hat : attemptTranslate (oracle 0) chunk = some (reconcile chunk parsed) := by
    rw [h0, attemptTranslate]
    simp [List.isEmpty_eq_false.mpr hne]
  have htc : translateChunk oracle chunk = ⟨reconcile chunk parsed, 1, []⟩ := by
    rw [translateChunk]
    exact translateChunkAux_success oracle chunk _ 0 hat
  rw [htc]
  refine ⟨rfl, rfl, fun i t hi ht htne => ?_, fun i hi => ?_⟩
  · have hci : i < chunk.length := Nat.lt_trans hi hshort
    rw [reconcile_getElem?,
      (List.getElem?_eq_some_getElem_iff chunk i hci).mpr trivial]
    simp only [Option.map_some']
    rw [ht, jsOr_of_ne_empty t _ htne]
  · have hp : parsed[i]? = none := List.getElem?_eq_none_iff.mpr hi
    rw [reconcile_getElem?, hp]
    cases chunk[i]? <;> simp [jsOr]

def demoChunk7 : List SubtitleBlock := [⟨"a", 0, 1⟩, ⟨"b", 2, 3⟩]

def demoOracle7 : Nat → Option (List ParsedItem) :=
  fun n => if n = 0 then some [⟨some ("xin")⟩] else none

theorem C7_short_parse_positional_witness :
    (translateChunk demoOracle7 demoChunk7).attemptsMade = 1 ∧
    ((translateChunk demoOracle7 demoChunk7).blocks[0]?).map SubtitleBlock.text
      = some ("xin") ∧
    ((translateChunk demoOracle7 demoChunk7).blocks[1]?).map SubtitleBlock.text
      = some ("b") := by
  have h := C7_short_parse_positional demoOracle7 demoChunk7 [⟨some ("xin")⟩]
    rfl (by decide) (by decide)
  refine ⟨h.1, h.2.2.1 0 ("xin") (by decide) rfl (by decide), ?_⟩
  have h2 := h.2.2.2 1 (by decide)
  rw [h2]
  rfl

/-! ## Segment Normalizer

`generateTranscriptWorker` filters the raw caption segments with
`'start_ms' in segment && 'snippet' in segment && segment.snippet?.text !== undefined`
and maps the survivors to
`{ text: segment.snippet.text || '', offset: parseInt(start_ms) || 0,
   duration: (parseInt(end_ms) || 0) - (parseInt(start_ms) || 0) }`.
Optional fields model presence of the corresponding JavaScript property. -/

/-- The `snippet` object of a raw caption segment; `text` is `none` when the
`text` property is absent (`undefined`). -/
structure Snippet where
  text : Option String
deriving DecidableEq, Repr

/-- A raw caption-track entry as consumed by the filter: `none` fields model
absent properties. -/
structure RawSegment where
  start_ms : Option String
  end_ms : Option String
  snippet : Option Snippet
deriving DecidableEq, Repr

/-- Decimal `parseInt`: skip leading whitespace, optional sign, then the
longest digit prefix; `none` models `NaN` (no digits). -/
def parseIntJS (s : String) : Option Int :=
  let cs := s.toList.dropWhile (fun c => c = ' ' || c = '\t' || c = '\n' || c = '\r')
  let signed : Bool × List Char :=
    match cs with
    | '-' :: rest => (true, rest)
    | '+' :: rest => (false, rest)
    | rest => (false, rest)
  let ds := signed.2.takeWhile Char.isDigit
  if ds.isEmpty then none
  else
    let n : Nat := ds.foldl (fun acc c => acc * 10 + (c.toNat - '0'.toNat)) 0
    some (if signed.1 then -(n : Int) else (n : Int))

/-- Evaluation of `parseInt(field) || 0` on an optional field: an absent property or a `NaN`
parse both become `0`.  (`parseInt(undefined)` is `NaN`; `0 || 0` is `0`.) -/
def parseField (o : Option String) : Int :=
  (o.bind parseIntJS).getD 0

/-- The filter predicate of the normalizer. -/
def includeSegment (s : RawSegment) : Bool :=
  s.start_ms.isSome && s.snippet.isSome && (s.snippet.bind Snippet.text).isSome

/-- The map of the normalizer. -/
def normalizeSegment (s : RawSegment) : SubtitleBlock :=
  { text := jsOr (s.snippet.bind Snippet.text) ""
    offset := parseField s.start_ms
    duration := parseField s.end_ms - parseField s.start_ms }

/-- The Segment Normalizer: raw segments to a Timeline. -/
def normalizeSegments (segs : List RawSegment) : List SubtitleBlock :=
  (segs.filter includeSegment).map normalizeSegment

/-- The claimed reference filter, from the spec's words: a segment is included
iff it carries both a start time and an end time and a snippet (an absent
snippet text is tolerated). -/
def specIncludeSegment (s : RawSegment) : Bool :=
  s.start_ms.isSome && s.end_ms.isSome && s.snippet.isSome

/-- The claimed reference map, from the spec's words: absent snippet text
becomes the empty string; offset and duration from independently defaulted
parses. -/
def specNormalizeSegment (s : RawSegment) : SubtitleBlock :=
  { text := (s.snippet.bind Snippet.text).getD ("")
    offset := parseField s.start_ms
    duration := parseField s.end_ms - parseField s.start_ms }

/-- The Segment Normalizer as the claim states it. -/
def specNormalizeSegments (segs : List RawSegment) : List SubtitleBlock :=
  (segs.filter specIncludeSegment).map specNormalizeSegment

/-- C5 as stated is false: the code's filter never looks at `end_ms`, and it
excludes a segment whose snippet text is absent.  A segment with a start time,
a snippet text and no end time is kept by the code but dropped by the claimed
reference definition; a segment with start and end times and a textless
snippet is dropped by the code but kept by the reference definition. -/
theorem C5_counterexample_normalizer :
    normalizeSegments [⟨some ("0"), none, some ⟨some ("hi")⟩⟩] ≠
      specNormalizeSegments [⟨some ("0"), none, some ⟨some ("hi")⟩⟩] ∧
    normalizeSegments [⟨some ("0"), some ("5"), some ⟨none⟩⟩] ≠
      specNormalizeSegments [⟨some ("0"), some ("5"), some ⟨none⟩⟩] := by
  constructor <;> decide

theorem jsOr_empty_fallback (x : Option String) : jsOr x ("") = x.getD ("") := by
  cases x with
  | none => rfl
  | some t =>
    rw [jsOr]
    by_cases h : t.isEmpty
    · rw [if_pos h]
      exact ((String.isEmpty_iff t).mp h).symm
    · rw [if_neg h]
      rfl

/-- C5 (amended): the Segment Normalizer equals the following reference
definition: a raw segment is included iff it carries a start time and a
snippet whose `text` field is present (the presence of an end time is not
checked, and a segment whose snippet text is absent is excluded — a
present-but-empty text is kept as the empty string); for every included
segment, `offset` = parsed start time (defaulting to 0 when non-numeric or
missing) and `duration` = parsed end time − parsed start time (each side
independently defaulting to 0), so `duration` may be negative and is passed
through unchanged. -/
theorem C5_normalizer_reference (segs : List RawSegment) :
    normalizeSegments segs =
      (segs.filter
          (fun s => s.start_ms.isSome && (s.snippet.bind Snippet.text).isSome)).map
        (fun s =>
          { text := (s.snippet.bind Snippet.text).getD ("")
            offset := (s.start_ms.bind parseIntJS).getD 0
            duration := (s.end_ms.bind parseIntJS).getD 0
              - (s.start_ms.bind parseIntJS).getD 0 }) := by
  have hpred : ∀ s : RawSegment,
      includeSegment s
        = (s.start_ms.isSome && (s.snippet.bind Snippet.text).isSome) := by
    intro s
    cases hsn : s.snippet with
    | none => simp [includeSegment, hsn]
    | some sn => simp [includeSegment, hsn]
  have hmap : ∀ s : RawSegment,
      normalizeSegment s
        = { text := (s.snippet.bind Snippet.text).getD ("")
            offset := (s.start_ms.bind parseIntJS).getD 0
            duration := (s.end_ms.bind parseIntJS).getD 0
              - (s.start_ms.bind parseIntJS).getD 0 } := by
    intro s
    rw [normalizeSegment, jsOr_empty_fallback]
    rfl
  rw [normalizeSegments, List.filter_congr (fun s _ => hpred s),
    List.map_eq_map_iff.mpr (fun s _ => hmap s)]

/-! ## extractVideoId

`extractVideoId` tries the regex
`(?:youtube\.com\/watch\?v=|youtu\.be\/|youtube\.com\/embed\/)([^&\n?#]+)`
(leftmost match, alternatives in order, greedy one-or-more capture) and then
`^([a-zA-Z0-9_-]{11})$`, returning the first capture or `null`. -/

/-- The character class `[^&\n?#]` complement: delimiters ending the capture. -/
def isDelim (c : Char) : Bool :=
  c = '&' || c = '\n' || c = '?' || c = '#'

/-- The three marker alternatives of the first regex, in alternation order. -/
def markers : List (List Char) :=
  ["youtube.com/watch?v=".toList, "youtu.be/".toList, "youtube.com/embed/".toList]

/-- Try the first regex at one position: a marker must match here, followed by
at least one non-delimiter character; the capture is the maximal run of
non-delimiter characters after the marker. -/
def tryMarkersAt (cs : List Char) : Option (List Char) :=
  markers.findSome? (fun m =>
    if m.isPrefixOf cs then
      let run := (cs.drop m.length).takeWhile (fun c => !isDelim c)
      if run.isEmpty then none else some run
    else none)

/-- Leftmost match of the first regex: scan positions left to right. -/
def scanMarkers : List Char → Option (List Char)
  | [] => none
  | c :: cs =>
    match tryMarkersAt (c :: cs) with
    | some run => some run
    | none => scanMarkers cs

/-- The character class `[a-zA-Z0-9_-]` of the bare-identifier regex. -/
def isIdChar (c : Char) : Bool :=
  c.isAlphanum || c = '_' || c = '-'

/-- The function `extractVideoId(url)`: first capture of the URL regex, else the whole
string when it is exactly 11 identifier characters, else `null` (`none`). -/
def extractVideoId (url : String) : Option String :=
  match scanMarkers url.toList with
  | some run => some (String.mk run)
  | none =>
    if url.toList.length = 11 && url.toList.all isIdChar then some url
    else none

theorem watchMarker_toList :
    "youtube.com/watch?v=".toList
      = ['y', 'o', 'u', 't', 'u', 'b', 'e', '.', 'c', 'o', 'm', '/', 'w', 'a',
         't', 'c', 'h', '?', 'v', '='] := rfl

theorem beMarker_toList :
    "youtu.be/".toList = ['y', 'o', 'u', 't', 'u', '.', 'b', 'e', '/'] := rfl

theorem embedMarker_toList :
    "youtube.com/embed/".toList
      = ['y', 'o', 'u', 't', 'u', 'b', 'e', '.', 'c', 'o', 'm', '/', 'e', 'm',
         'b', 'e', 'd', '/'] := rfl

/-- No marker can match at a position whose first character is not `y`. -/
theorem tryMarkersAt_not_y (c : Char) (cs : List Char) (h : c ≠ 'y') :
    tryMarkersAt (c :: cs) = none := by
  have hb : (('y' : Char) == c) = false :=
    beq_eq_false_iff_ne.mpr (fun he => h he.symm)
  rw [tryMarkersAt, markers]
  simp [List.findSome?, watchMarker_toList, beMarker_toList, embedMarker_toList,
    List.isPrefixOf, hb]

/-- Scanning skips any prefix free of `y`. -/
theorem scanMarkers_append_not_y (pre rest : List Char)
    (h : ∀ c ∈ pre, c ≠ 'y') :
    scanMarkers (pre ++ rest) = scanMarkers rest := by
  induction pre with
  | nil => rfl
  | cons c p ih =>
    rw [List.cons_append, scanMarkers,
      tryMarkersAt_not_y c (p ++ rest) (h c (List.mem_cons_self c p))]
    exact ih (fun d hd => h d (List.mem_cons_of_mem c hd))

theorem scanMarkers_pos (l : List Char) (hl : l ≠ []) (run : List Char)
    (h : tryMarkersAt l = some run) :
    scanMarkers l = some run := by
  cases l with
  | nil => exact absurd rfl hl
  | cons c cs => rw [scanMarkers, h]

/-- At a position where a marker starts and is followed by a non-empty run of
non-delimiter characters, the regex captures exactly that maximal run. -/
theorem tryMarkersAt_marker_some (m : List Char) (hm : m ∈ markers)
    (x : List Char)
    (hne : (x.takeWhile (fun c => !isDelim c)).isEmpty = false) :
    tryMarkersAt (m ++ x) = some (x.takeWhile (fun c => !isDelim c)) := by
  rw [markers] at hm
  simp only [List.mem_cons, List.not_mem_nil, or_false] at hm
  rcases hm with hm | hm | hm <;> subst hm <;>
    rw [tryMarkersAt, markers] <;>
    simp [List.findSome?, watchMarker_toList, beMarker_toList,
      embedMarker_toList, List.isPrefixOf, List.drop_left, hne]

theorem takeWhile_append_of_all (p : Char → Bool) (xs ys : List Char)
    (hx : ∀ x ∈ xs, p x = true) (hy : ys.takeWhile p = []) :
    (xs ++ ys).takeWhile p = xs := by
  induction xs with
  | nil => simpa using hy
  | cons a t ih =>
    rw [List.cons_append, List.takeWhile_cons,
      hx a (List.mem_cons_self a t)]
    rw [ih (fun x hx' => hx x (List.mem_cons_of_mem a hx'))]
    simp

/-- C10 as stated is false at inputs where the marker is followed by no
capturable character: `"youtu.be/"` contains the marker `youtu.be/`, and the
claim would have `extractVideoId` return the run of following characters up to
the first delimiter or end of string — here the empty string — but the code
returns no identifier at all. -/
theorem C10_counterexample_empty_run :
    extractVideoId ("youtu.be/") = none ∧ extractVideoId ("youtu.be/") ≠ some ("") := by
  refine ⟨?_, ?_⟩ <;> decide

/-- C10 (amended): for every input of the shape `pre ++ marker ++ id ++ post`
where `pre` contains no `y` (so no earlier marker occurrence exists), `id` is
a non-empty run of non-delimiter characters, and `post` is empty or starts
with one of the delimiters `&`, newline, `?`, `#`, `extractVideoId` returns
exactly `id`, regardless of its length — the 11-character constraint is
enforced only for bare inputs, so URL-shaped inputs can yield identifiers
shorter or longer than 11 characters. -/
theorem C10_marker_capture (pre m id post : String)
    (hm : m.toList ∈ markers)
    (hpre : ∀ c ∈ pre.toList, c ≠ 'y')
    (hid : id.toList ≠ [])
    (hidc : ∀ c ∈ id.toList, isDelim c = false)
    (hpost : post.toList = [] ∨
      ∃ d rest, post.toList = d :: rest ∧ isDelim d = true) :
    extractVideoId (pre ++ m ++ id ++ post) = some id := by
  have hrun : (id.toList ++ post.toList).takeWhile (fun c => !isDelim c)
      = id.toList := by
    refine takeWhile_append_of_all _ _ _ (fun x hx => by simp [hidc x hx]) ?_
    rcases hpost with hp | ⟨d, rest, hp, hd⟩
    · rw [hp]; rfl
    · rw [hp, List.takeWhile_cons, hd]; rfl
  have hl : (pre ++ m ++ id ++ post).toList
      = pre.toList ++ (m.toList ++ (id.toList ++ post.toList)) := by
    simp [List.append_assoc]
  have hne : (m.toList ++ (id.toList ++ post.toList)) ≠ [] := by
    rw [markers] at hm
    simp only [List.mem_cons, List.not_mem_nil, or_false] at hm
    rcases hm with hm | hm | hm <;> rw [hm] <;> simp
  have hempty : ((id.toList ++ post.toList).takeWhile
      (fun c => !isDelim c)).isEmpty = false := by
    rw [hrun]
    exact List.isEmpty_eq_false.mpr hid
  have hscan : scanMarkers ((pre ++ m ++ id ++ post).toList) = some id.toList := by
    rw [hl, scanMarkers_append_not_y pre.toList _ hpre]
    rw [scanMarkers_pos _ hne (id.toList)
      (by rw [tryMarkersAt_marker_some m.toList hm _ hempty, hrun])]
  rw [extractVideoId, hscan]
  rfl

/-! ## Worker, orchestrator and result cache

`generateTranscriptWorker` fetches the captions (via `youtubei.js`, modelled
as an oracle), normalizes, chunks, and translates every chunk in order.
`processVideo` extracts the identifier, consults the cache, runs the worker on
a miss, stores the result, and catches every exception into a failure value.
The run is instrumented with the number of caption fetches and model calls
performed, so that cache hits can be shown to perform none. -/

/-- Outcome of the caption fetch for one identifier: the fetch chain threw
(`fetchError`), the `initial_segments` path is missing (`noSegments`), or a
track with its raw segment list. -/
inductive FetchOutcome where
  | fetchError (msg : String)
  | noSegments
  | track (segs : List RawSegment)
deriving DecidableEq, Repr

/-- The external collaborators: the caption source and, per chunk index and
attempt, the translation-model outcome. -/
structure Env where
  fetch : String → FetchOutcome
  oracle : Nat → Nat → Option (List ParsedItem)

def noTranscriptMsg : String :=
  "No transcript found. The video may not have captions enabled."

def noSegmentsMsg : String := "No transcript segments found."

def invalidUrlMsg : String :=
  "Invalid YouTube URL. Please enter a valid YouTube link."

/-- The translation loop of the worker: translate every chunk in order,
concatenating the results and summing the model calls made. -/
def translateAllAux (env : Env) :
    Nat → List (List SubtitleBlock) → List SubtitleBlock × Nat
  | _, [] => ([], 0)
  | j, c :: cs =>
    let r := translateChunk (env.oracle j) c
    let rest := translateAllAux env (j + 1) cs
    (r.blocks ++ rest.1, r.attemptsMade + rest.2)

/-- The worker `generateTranscriptWorker(videoId)`: fetch, filter/normalize, chunk,
translate.  The `Nat` component counts model calls; `Except.error` models a
thrown error caught later by `processVideo`. -/
def generateTranscriptWorker (env : Env) (videoId : String) :
    Except String (List SubtitleBlock) × Nat :=
  match env.fetch videoId with
  | .fetchError m => (.error m, 0)
  | .noSegments => (.error noTranscriptMsg, 0)
  | .track segs =>
    if segs.isEmpty then (.error noSegmentsMsg, 0)
    else
      let r := translateAllAux env 0 (chunkList chunkSize (normalizeSegments segs))
      (.ok r.1, r.2)

/-- Modelled from the spec: the result cache (`unstable_cache` with
`revalidate: 86400`, not part of this repository's sources) keyed by video
identifier, each entry holding a Timeline and its insertion time in
seconds. -/
structure CacheEntry where
  data : List SubtitleBlock
  insertedAt : Nat
deriving DecidableEq, Repr

/-- Modelled from the spec: the cache store, an association list keyed by
video identifier. -/
abbrev Cache := List (String × CacheEntry)

/-- Modelled from the spec: entries expire a fixed 24 hours (86400 seconds)
after insertion. -/
def TTL : Nat := 86400

/-- Modelled from the spec: `get(key)` returns the stored Timeline when the
entry is younger than the TTL, and a miss otherwise. -/
def cacheGet (c : Cache) (key : String) (now : Nat) : Option (List SubtitleBlock) :=
  match c.lookup key with
  | some e => if now - e.insertedAt < TTL then some e.data else none
  | none => none

/-- Modelled from the spec: `set(key, timeline)` inserts an entry timestamped
with the insertion time (shadowing any previous entry for the key). -/
def cacheSet (c : Cache) (key : String) (data : List SubtitleBlock)
    (now : Nat) : Cache :=
  (key, ⟨data, now⟩) :: c

/-- The discriminated result of `processVideo`:
`{ success: true, data }` or `{ success: false, error }`. -/
inductive ProcessResult where
  | success (data : List SubtitleBlock)
  | failure (error : String)
deriving DecidableEq, Repr

/-- Counts of external calls made during one `processVideo` invocation. -/
structure RunStats where
  fetchCalls : Nat
  modelCalls : Nat
deriving DecidableEq, Repr

/-- The orchestrator `processVideo(videoUrl)`: extract the identifier (throwing the invalid-URL
error when absent), serve from the cache on a hit, otherwise run the worker
and store its output; every thrown error is caught into a failure value. -/
def processVideo (env : Env) (cache : Cache) (now : Nat) (videoUrl : String) :
    ProcessResult × Cache × RunStats :=
  match extractVideoId videoUrl with
  | none => (.failure invalidUrlMsg, cache, ⟨0, 0⟩)
  | some videoId =>
    match cacheGet cache videoId now with
    | some data => (.success data, cache, ⟨0, 0⟩)
    | none =>
      match generateTranscriptWorker env videoId with
      | (Except.ok data, calls) =>
        (.success data, cacheSet cache videoId data now, ⟨1, calls⟩)
      | (Except.error m, calls) => (.failure m, cache, ⟨1, calls⟩)

/-- C2: for every Timeline and chunk size `N > 0`, chunking is a lossless
deterministic partition: concatenation restores the Timeline, there are
`⌈len/N⌉` chunks, all but the last of size exactly `N`, and the last of size
`len mod N` (or `N` when `len` is evenly divisible by `N`), with no
reordering. -/
theorem C2_chunking_partition (T : List SubtitleBlock) (N : Nat) (hN : 0 < N) :
    (chunkList N T).flatten = T ∧
    (chunkList N T).length = (T.length + N - 1) / N ∧
    (∀ c ∈ (chunkList N T).dropLast, c.length = N) ∧
    (∀ c, (chunkList N T).getLast? = some c →
      c.length = if T.length % N = 0 then N else T.length % N) := by
  obtain ⟨n, rfl⟩ : ∃ n, N = n + 1 := ⟨N - 1, by omega⟩
  refine ⟨chunkList_join n T, ?_, chunkList_dropLast n T, chunkList_getLast n T⟩
  have hlen : T.length + (n + 1) - 1 = T.length + n := by omega
  rw [hlen, chunkList_length n T]

def demoTimeline5 : List SubtitleBlock :=
  [⟨"a", 0, 1⟩, ⟨"b", 1, 1⟩, ⟨"c", 2, 1⟩, ⟨"d", 3, 1⟩, ⟨"e", 4, 1⟩]

theorem C2_chunking_partition_witness :
    (chunkList 2 demoTimeline5).flatten = demoTimeline5 ∧
    (chunkList 2 demoTimeline5).length = (demoTimeline5.length + 2 - 1) / 2 ∧
    (∀ c ∈ (chunkList 2 demoTimeline5).dropLast, c.length = 2) ∧
    (∀ c, (chunkList 2 demoTimeline5).getLast? = some c →
      c.length = if demoTimeline5.length % 2 = 0 then 2
        else demoTimeline5.length % 2) :=
  C2_chunking_partition demoTimeline5 2 (by decide)

/-- C4: `processVideo` never lets an exception cross its boundary: for every
environment, cache state, time and input string it returns a discriminated
value — a success, or the invalid-URL failure (exactly when no identifier can
be extracted), or a failure carrying the worker's error message (fetch
failures, missing transcripts, and unknown errors alike). -/
theorem C4_processVideo_total (env : Env) (cache : Cache) (now : Nat)
    (url : String) :
    (∃ d, (processVideo env cache now url).1 = ProcessResult.success d) ∨
    ((processVideo env cache now url).1 = ProcessResult.failure invalidUrlMsg ∧
      extractVideoId url = none) ∨
    (∃ id m, extractVideoId url = some id ∧
      (generateTranscriptWorker env id).1 = Except.error m ∧
      (processVideo env cache now url).1 = ProcessResult.failure m) := by
  cases hx : extractVideoId url with
  | none =>
    refine Or.inr (Or.inl ⟨?_, rfl⟩)
    simp [processVideo, hx]
  | some id =>
    cases hc : cacheGet cache id now with
    | some data =>
      refine Or.inl ⟨data, ?_⟩
      simp [processVideo, hx, hc]
    | none =>
      cases hw : generateTranscriptWorker env id with
      | mk res calls =>
        cases res with
        | ok data =>
          refine Or.inl ⟨data, ?_⟩
          simp [processVideo, hx, hc, hw]
        | error m =>
          refine Or.inr (Or.inr ⟨id, m, rfl, by rw [hw], ?_⟩)
          simp [processVideo, hx, hc, hw]

theorem C10_marker_capture_witness :
    extractVideoId ("https://www." ++ "youtu.be/" ++ "abc" ++ "?t=1")
      = some ("abc") :=
  C10_marker_capture ("https://www.") "youtu.be/" "abc" "?t=1" (by decide)
    (by decide) (by decide) (by decide)
    (Or.inr ⟨'?', ['t', '=', '1'], rfl, rfl⟩)

/-- An environment whose caption track holds a single structural segment
(no `start_ms`, no `snippet`), which the normalizer filters out, and whose
model always fails. -/
def demoEnvHeaderOnly : Env :=
  { fetch := fun _ => FetchOutcome.track [⟨none, none, none⟩]
    oracle := fun _ _ => none }

/-- An environment whose caption track exists but has an empty raw segment
list. -/
def demoEnvEmptyTrack : Env :=
  { fetch := fun _ => FetchOutcome.track []
    oracle := fun _ _ => none }

/-- C6 as stated is false: with a caption track whose only raw segment is
structural (filtered out, so zero usable segments after filtering),
`processVideo` returns success with an empty Timeline instead of an
empty-transcript failure. -/
theorem C6_counterexample_success_empty :
    demoEnvHeaderOnly.fetch ("dQw4w9WgXcQ")
        = FetchOutcome.track [⟨none, none, none⟩] ∧
    ([⟨none, none, none⟩] : List RawSegment).filter includeSegment = [] ∧
    (processVideo demoEnvHeaderOnly [] 0 ("dQw4w9WgXcQ")).1
        = ProcessResult.success [] := by
  refine ⟨rfl, by decide, ?_⟩
  have hx : extractVideoId ("dQw4w9WgXcQ") = some ("dQw4w9WgXcQ") := by decide
  have hnorm : normalizeSegments [⟨none, none, none⟩] = [] := by decide
  simp [processVideo, hx, cacheGet, generateTranscriptWorker, demoEnvHeaderOnly,
    hnorm, chunkList_nil, translateAllAux]

/-- C6 (amended): the code raises its empty-transcript error (distinct from
the no-caption-track error) only when the *raw* segment list is empty; when
raw segments exist but all are filtered out, `processVideo` returns success
with an empty Timeline rather than a failure. -/
theorem C6_empty_transcript_behaviour (env : Env) (cache : Cache) (now : Nat)
    (url id : String)
    (hid : extractVideoId url = some id)
    (hmiss : cacheGet cache id now = none) :
    (env.fetch id = FetchOutcome.track [] →
      (processVideo env cache now url).1 = ProcessResult.failure noSegmentsMsg) ∧
    (∀ segs, env.fetch id = FetchOutcome.track segs → segs ≠ [] →
      segs.filter includeSegment = [] →
      (processVideo env cache now url).1 = ProcessResult.success []) ∧
    noSegmentsMsg ≠ noTranscriptMsg := by
  refine ⟨?_, ?_, by decide⟩
  · intro hf
    simp [processVideo, hid, hmiss, generateTranscriptWorker, hf]
  · intro segs hf hne hfil
    have hnorm : normalizeSegments segs = [] := by
      rw [normalizeSegments, hfil]
      rfl
    have hemp : segs.isEmpty = false := List.isEmpty_eq_false.mpr hne
    simp [processVideo, hid, hmiss, generateTranscriptWorker, hf, hemp, hnorm,
      chunkList_nil, translateAllAux]

theorem C6_empty_transcript_behaviour_witness :
    (processVideo demoEnvEmptyTrack [] 0 ("dQw4w9WgXcQ")).1
        = ProcessResult.failure noSegmentsMsg ∧
    (processVideo demoEnvHeaderOnly [] 5 ("dQw4w9WgXcQ")).1
        = ProcessResult.success [] :=
  ⟨(C6_empty_transcript_behaviour demoEnvEmptyTrack [] 0 ("dQw4w9WgXcQ")
      "dQw4w9WgXcQ" rfl rfl).1 rfl,
   (C6_empty_transcript_behaviour demoEnvHeaderOnly [] 5 ("dQw4w9WgXcQ")
      "dQw4w9WgXcQ" rfl rfl).2.1 [⟨none, none, none⟩] rfl (by decide)
      (by decide)⟩

theorem chunkList_chunkSize_small (l : List α) (h1 : l ≠ [])
    (h2 : l.length ≤ chunkSize) : chunkList chunkSize l = [l] := by
  cases l with
  | nil => exact absurd rfl h1
  | cons a t =>
    have h2' : (a :: t).length ≤ 49 + 1 := by simpa [chunkSize] using h2
    rw [show chunkSize = 49 + 1 from rfl, chunkList_cons_succ,
      List.take_of_length_le h2', List.drop_of_length_le h2', chunkList_nil]

/-- C8 (cache modelled from the spec, `unstable_cache` is not in the
sources): when a call for an identifier succeeded and a second call for the
same identifier comes while the cache entry is within the 24-hour TTL window
measured from its insertion, the second call returns exactly the first call's
output and performs no caption fetch and no model call. -/
theorem C8_cache_hit_second_call (env : Env) (c0 : Cache) (t0 t1 : Nat)
    (url id : String) (d : List SubtitleBlock) (c1 : Cache) (s1 : RunStats)
    (hid : extractVideoId url = some id)
    (hmiss : cacheGet c0 id t0 = none)
    (h1 : processVideo env c0 t0 url = (ProcessResult.success d, c1, s1))
    (hfresh : t1 - t0 < TTL) :
    processVideo env c1 t1 url = (ProcessResult.success d, c1, ⟨0, 0⟩) := by
  cases hw : generateTranscriptWorker env id with
  | mk res calls =>
    cases res with
    | ok data =>
      simp only [processVideo, hid, hmiss, hw, Prod.mk.injEq,
        ProcessResult.success.injEq] at h1
      obtain ⟨hd, hc, -⟩ := h1
      subst hd
      subst hc
      have hget : cacheGet (cacheSet c0 id data t0) id t1 = some data := by
        simp [cacheGet, cacheSet, List.lookup, hfresh]
      simp [processVideo, hid, hget]
    | error m =>
      simp [processVideo, hid, hmiss, hw] at h1

/-- The environment for the cache witness: one real caption segment, a model
that always fails (the pipeline still succeeds, with marked text). -/
def demoEnvC8 : Env :=
  { fetch := fun _ =>
      FetchOutcome.track [⟨some ("0"), some ("1000"), some ⟨some ("hi")⟩⟩]
    oracle := fun _ _ => none }

def demoBlockC8 : SubtitleBlock := ⟨failureMarker ++ "hi", 0, 1000⟩

theorem C8_cache_hit_second_call_witness :
    processVideo demoEnvC8 (cacheSet [] ("dQw4w9WgXcQ") [demoBlockC8] 0) 100
        "dQw4w9WgXcQ"
      = (ProcessResult.success [demoBlockC8],
          cacheSet [] ("dQw4w9WgXcQ") [demoBlockC8] 0, ⟨0, 0⟩) := by
  have hx : extractVideoId ("dQw4w9WgXcQ") = some ("dQw4w9WgXcQ") := by decide
  have hnorm : normalizeSegments [⟨some ("0"), some ("1000"), some ⟨some ("hi")⟩⟩]
      = [⟨"hi", 0, 1000⟩] := by decide
  have hch : chunkList chunkSize [(⟨"hi", 0, 1000⟩ : SubtitleBlock)]
      = [[⟨"hi", 0, 1000⟩]] :=
    chunkList_chunkSize_small _ (by decide) (by decide)
  have htr : translateChunk (fun _ => none) [(⟨"hi", 0, 1000⟩ : SubtitleBlock)]
      = ⟨[demoBlockC8], 4, [1000, 2000, 3000]⟩ := by
    rw [translateChunk,
      translateChunkAux_all_fail (fun _ => none) _ (fun _ => rfl)]
    rfl
  have h1 : processVideo demoEnvC8 [] 0 ("dQw4w9WgXcQ")
      = (ProcessResult.success [demoBlockC8],
          cacheSet [] ("dQw4w9WgXcQ") [demoBlockC8] 0, ⟨1, 4⟩) := by
    simp [processVideo, hx, cacheGet, generateTranscriptWorker, demoEnvC8,
      hnorm, hch, translateAllAux, htr]
  exact C8_cache_hit_second_call demoEnvC8 [] 0 100 ("dQw4w9WgXcQ") "dQw4w9WgXcQ"
    [demoBlockC8] _ _ hx rfl h1 (by decide)

/-- C9: `extractVideoId` maps the documented watch, short-link, embed and
bare-identifier examples to `dQw4w9WgXcQ`, rejects `not a url`, and whenever
no identifier can be extracted from the input, `processVideo` fails with the
invalid-URL error. -/
theorem C9_extractVideoId_contract :
    extractVideoId ("https://www.youtube.com/watch?v=dQw4w9WgXcQ")
      = some ("dQw4w9WgXcQ") ∧
    extractVideoId ("https://youtu.be/dQw4w9WgXcQ") = some ("dQw4w9WgXcQ") ∧
    extractVideoId ("dQw4w9WgXcQ") = some ("dQw4w9WgXcQ") ∧
    extractVideoId ("https://www.youtube.com/embed/dQw4w9WgXcQ")
      = some ("dQw4w9WgXcQ") ∧
    extractVideoId ("not a url") = none ∧
    (∀ env cache now url, extractVideoId url = none →
      (processVideo env cache now url).1 = ProcessResult.failure invalidUrlMsg) := by
  refine ⟨by decide, by decide, by decide, by decide, by decide, ?_⟩
  intro env cache now url hnone
  simp [processVideo, hnone]

theorem C9_extractVideoId_contract_witness :
    (processVideo demoEnvHeaderOnly [] 0 ("not a url")).1
      = ProcessResult.failure invalidUrlMsg :=
  C9_extractVideoId_contract.2.2.2.2.2 demoEnvHeaderOnly [] 0 ("not a url")
    (by decide)
